import Mathlib

/-!
Verification development for the PyFORC core pipeline (src/Forc.py, src/util.py).

Shallow embedding conventions:
* A numpy float64 cell is `Option ℚ`: `none` is the IEEE NaN ("missing")
  sentinel, `some q` a finite value modelled exactly.
* A 2-D ndarray is a row-major `List (List (Option ℚ))`.  The source only
  builds rectangular arrays; an out-of-range read (a Python IndexError,
  unreachable in the modelled flows) is modelled as a `none` cell.
* A Python method that assigns to `self` is embedded as a function returning
  the updated receiver as the first component of a pair; the second component
  is the `Except` result (a raised exception becomes `.error`).
-/

namespace PyFORC

/-- One grid cell of a float array: `none` models IEEE NaN. -/
abbrev Cell := Option ℚ

/-- Row of a 2-D array. -/
abbrev Row := List Cell

/-- Row-major 2-D float array. -/
abbrev Arr := List Row

/-- Entry `a[i, j]`; out-of-range reads give `none`. -/
def get2 (a : Arr) (i j : ℕ) : Cell := ((a[i]?).bind fun r => r[j]?).join

/-- Number of columns, read off the first row (numpy arrays are rectangular). -/
def ncols (a : Arr) : ℕ := (a.headD []).length

/-- IEEE addition: NaN propagates. -/
def optAdd (x y : Cell) : Cell :=
  match x, y with
  | some a, some b => some (a + b)
  | _, _ => none

/-- IEEE subtraction: NaN propagates. -/
def optSub (x y : Cell) : Cell :=
  match x, y with
  | some a, some b => some (a - b)
  | _, _ => none

/-- Scaling by a finite constant: NaN propagates. -/
def optScale (c : ℚ) (x : Cell) : Cell := x.map fun v => c * v

/-- Sum of IEEE values accumulated from 0, as in the convolution inner loop:
NaN if any term is NaN. -/
def optSum (l : List Cell) : Cell := l.foldr optAdd (some 0)

/-- Elementwise difference of two same-shape arrays. -/
def subArr (x y : Arr) : Arr := List.zipWith (fun r1 r2 => List.zipWith optSub r1 r2) x y

/-- Elementwise scaling of an array by a finite constant. -/
def scaleArr (c : ℚ) (a : Arr) : Arr := a.map fun row => row.map (optScale c)

/-- np.any(1 - np.isnan(a)): does the array hold at least one finite entry. -/
def aAnyNotNan (a : Arr) : Bool := a.any fun row => row.any fun x => x.isSome

/-- Every entry of the array is finite. -/
def aAllFinite (a : Arr) : Bool := a.all fun row => row.all fun x => x.isSome

/-- All finite entries of the array, row-major. -/
def finiteVals (a : Arr) : List ℚ := (a.map fun row => row.filterMap id).flatten

/-- np.nanmax: maximum over the finite entries, NaN when there are none. -/
def aNanMax (a : Arr) : Option ℚ :=
  match finiteVals a with
  | [] => none
  | x :: xs => some (xs.foldl max x)

/-- np.nanmin: minimum over the finite entries, NaN when there are none. -/
def aNanMin (a : Arr) : Option ℚ :=
  match finiteVals a with
  | [] => none
  | x :: xs => some (xs.foldl min x)

/-- np.min: NaN-propagating minimum (NaN if any entry is NaN; the empty-array
ValueError corner, unreachable here, is also modelled as NaN). -/
def aMin (a : Arr) : Option ℚ :=
  if a.any (fun row => row.any fun x => x.isNone) then none
  else
    match finiteVals a with
    | [] => none
    | x :: xs => some (xs.foldl min x)

/-- np.diff along a row: consecutive forward differences, NaN-propagating. -/
def diffs : Row → Row
  | [] => []
  | [_] => []
  | a :: b :: rest => optSub b a :: diffs (b :: rest)

/-- np.mean of a 1-D float list: NaN when empty or when any entry is NaN. -/
def meanO (l : List Cell) : Option ℚ :=
  if l.isEmpty || l.any (fun x => x.isNone) then none
  else some ((l.filterMap id).sum / l.length)

/-- UniformForc._determine_step: mean over reversal curves of the mean field
step along each curve. -/
def determine_step (h : Arr) : Option ℚ :=
  meanO (h.map fun row => meanO (diffs row))

/-- Exceptions raised by the modelled code paths. -/
inductive Err where
  | valueError
  | indexError
  | notImplementedError
  | dataFormatError
  | numericalError
  | attributeError
  deriving DecidableEq

/-- The Dataset value object (class UniformForc).  `step` and `hmin` are the
cached quantities the modelled operations read; the remaining cached ranges of
_update_data_range are never read by any modelled operation and are omitted. -/
structure Forc where
  h : Arr
  hr : Arr
  m : Arr
  temperature : Option Arr
  rho : Option Arr
  step : Option ℚ
  hmin : Option ℚ
  deriving DecidableEq

/-- UniformForc.__init__ from arrays: store the arrays, derive the step from
the field array and cache np.min(h). -/
def mkUniformForc (h hr m : Arr) (T rho : Option Arr) : Forc :=
  { h := h, hr := hr, m := m, temperature := T, rho := rho,
    step := determine_step h, hmin := aMin h }

/-- UniformForc.has_m: the source tests self.m. -/
def has_m (d : Forc) : Bool := aAnyNotNan d.m

/-- UniformForc.has_rho: the source tests self.m, not self.rho. -/
def has_rho (d : Forc) : Bool := aAnyNotNan d.m

/-- UniformForc.has_rho_uncertainty: the source tests self.m. -/
def has_rho_uncertainty (d : Forc) : Bool := aAnyNotNan d.m

/-- UniformForc.has_temperature: the source tests self.m, not self.temperature. -/
def has_temperature (d : Forc) : Bool := aAnyNotNan d.m

/-- Entry transform of min-max normalization, m = 1 - 2(max - m)/(max - min),
elementwise with NaN propagation; the degenerate max = min denominator (an IEEE
division by zero) is modelled as missing. -/
def minmaxEntry (mx mn : Option ℚ) (x : Cell) : Cell :=
  match x, mx, mn with
  | some v, some a, some b => if a = b then none else some (1 - 2 * (a - v) / (a - b))
  | _, _, _ => none

/-- Moment array of UniformForc.normalize with method minmax. -/
def minmaxArr (m : Arr) : Arr :=
  m.map fun row => row.map (minmaxEntry (aNanMax m) (aNanMin m))

/-- Result object of UniformForc.normalize (the method never assigns to self). -/
def normResult (d : Forc) (method : String) : Except Err Forc :=
  if method = "minmax" then
    .ok (mkUniformForc d.h d.hr (minmaxArr d.m) d.temperature d.rho)
  else .error .notImplementedError

/-- UniformForc.normalize: returns the unchanged receiver and the result. -/
def normalize (d : Forc) (method : String) : Forc × Except Err Forc :=
  (d, normResult d method)

/-- util.arg_first_not_nan: index of the first finite entry; the all-NaN
ValueError is modelled as `none`. -/
def argFirstNotNan (row : Row) : Option ℕ := row.findIdx? fun x => x.isSome

/-- util.arg_last_non_nan, via the reversed row as in the source. -/
def argLastNotNan (row : Row) : Option ℕ :=
  (argFirstNotNan row.reverse).map fun i => row.length - 1 - i

/-- Exact least-squares straight-line fit y = a x + b, the solution
scipy.optimize.curve_fit computes for util.line on finite data; a NaN among
the points or a degenerate normal system is modelled as the fit failing. -/
def lstsqLine (pts : List (Cell × Cell)) : Except Err (ℚ × ℚ) :=
  if pts.any (fun p => p.1.isNone || p.2.isNone) then .error .numericalError
  else
    let xs := pts.filterMap fun p => p.1
    let ys := pts.filterMap fun p => p.2
    let n : ℚ := pts.length
    let sx := xs.sum
    let sy := ys.sum
    let sxx := (xs.map fun x => x * x).sum
    let sxy := (List.zipWith (fun x y => x * y) xs ys).sum
    let den := n * sxx - sx * sx
    if den = 0 then .error .numericalError
    else .ok ((n * sxy - sx * sy) / den, (sy * sxx - sx * sxy) / den)

/-- Result object of UniformForc.slope_correction (the method never assigns to
self): subtract value*h from the moment, estimating value when not given. -/
def slopeResult (d : Forc) (h_sat value : Option ℚ) : Except Err Forc :=
  match value with
  | some v =>
    .ok (mkUniformForc d.h d.hr (subArr d.m (scaleArr v d.h)) d.temperature d.rho)
  | none =>
    match h_sat with
    | none =>
      let i0 := d.h.length - 1
      let hrow := (d.h[i0]?).getD []
      let mrow := (d.m[i0]?).getD []
      match argFirstNotNan mrow, argLastNotNan mrow with
      | some j1, some j2 =>
        match lstsqLine (List.zipWith Prod.mk ((hrow.drop j1).take (j2 - j1))
            ((mrow.drop j1).take (j2 - j1))) with
        | .error e => .error e
        | .ok (a, _) =>
          .ok (mkUniformForc d.h d.hr (subArr d.m (scaleArr a d.h)) d.temperature d.rho)
      | _, _ => .error .valueError
    | some hs =>
      let h0 := (d.h[0]?).getD []
      match h0.findIdx? (fun x => match x with | some v => decide (hs < v) | none => false) with
      | none => .error .indexError
      | some k =>
        let hgt : List Cell := h0.drop k
        let avg : List Cell := (List.range (ncols d.m - k)).map fun j =>
          let vals := d.m.filterMap fun row => (row[k + j]?).join
          if vals.length = 0 then none else some (vals.sum / vals.length)
        match lstsqLine (List.zipWith Prod.mk hgt avg) with
        | .error e => .error e
        | .ok (a, _) =>
          .ok (mkUniformForc d.h d.hr (subArr d.m (scaleArr a d.h)) d.temperature d.rho)

/-- UniformForc.slope_correction: returns the unchanged receiver and result. -/
def slope_correction (d : Forc) (h_sat value : Option ℚ) : Forc × Except Err Forc :=
  (d, slopeResult d h_sat value)

/-- Mask condition of UniformForc.get_masked: h < hr - 0.5*step; an IEEE
comparison against NaN is False, so a NaN operand keeps the cell. -/
def maskCond (h hr step : Cell) : Bool :=
  match h, hr, step with
  | some a, some b, some s => decide (a < b - s / 2)
  | _, _, _ => false

/-- One cell of the masked copy: NaN where h < hr - 0.5*step, else the
original value. -/
def maskEntry (d : Forc) (data : Arr) (i j : ℕ) : Cell :=
  if maskCond (get2 d.h i j) (get2 d.hr i j) d.step then none else get2 data i j

/-- Masked copy of a data array: cells with h < hr - 0.5*step become NaN. -/
def maskedArr (d : Forc) (data : Arr) : Arr :=
  (List.range data.length).map fun i =>
    (List.range ((data[i]?).getD []).length).map fun j => maskEntry d data i j

/-- Argument of the mask parameter: Python passes either a bool or a string. -/
inductive MaskArg where
  | Bb (b : Bool)
  | Ss (s : String)

/-- UniformForc.get_masked.  The source evaluates
mask is True or mask.lower() == given string, so a literal False raises
AttributeError on .lower(). -/
def get_masked (d : Forc) (data : Arr) (mask : MaskArg) : Except Err Arr :=
  match mask with
  | .Bb true => .ok (maskedArr d data)
  | .Bb false => .error .attributeError
  | .Ss s => if s.toLower = "h<hr" then .ok (maskedArr d data) else .ok data

/-- Convolution kernel: a small dense real matrix.  The entry function is a
total rational-valued function; only the shape and the finiteness of kernel
entries matter to the convolution's missing-value structure. -/
structure Kern where
  rows : ℕ
  cols : ℕ
  entry : ℕ → ℕ → ℚ

/-- Determinant of the leading k-by-k block of f, by cofactor expansion along
the first row (models the exact linear algebra behind np.linalg.pinv). -/
def detK : ℕ → (ℕ → ℕ → ℚ) → ℚ
  | 0, _ => 1
  | k + 1, f =>
    ((List.range (k + 1)).map fun j =>
      (-1 : ℚ) ^ j * f 0 j * detK k fun i' j' =>
        f (i' + 1) (if j' < j then j' else j' + 1)).sum

/-- Entry (i, j) of the inverse of the leading k-by-k block of f, via the
adjugate; a singular block gives 0 (division by zero in ℚ), a corner never
reached for the full-rank design matrices built by _sg_kernel. -/
def invK (k : ℕ) (f : ℕ → ℕ → ℚ) (i j : ℕ) : ℚ :=
  (-1 : ℚ) ^ (i + j) *
    detK (k - 1) (fun a b => f (if a < j then a else a + 1) (if b < i then b else b + 1)) /
    detK k f

/-- Forc._sg_kernel: the Savitzky-Golay style kernel.  The local coordinate
mesh is np.linspace(sf*step, -sf*step, 2*sf+1) along each axis, flattened
row-major; the design matrix has columns [1, x, x^2, y, y^2, x*y]; the kernel
is row 5 of the Moore-Penrose pseudo-inverse, reshaped to (2*sf+1, 2*sf+1).
The pseudo-inverse is modelled by the exact full-column-rank formula
(D^T D)^(-1) D^T. -/
def sg_kernel (sf : ℕ) (step_x step_y : ℚ) : Kern :=
  let n := 2 * sf + 1
  let x : ℕ → ℚ := fun k => ((sf : ℚ) - (k % n : ℕ)) * step_x
  let y : ℕ → ℚ := fun k => ((sf : ℚ) - (k / n : ℕ)) * step_y
  let col : ℕ → ℕ → ℚ := fun c k =>
    match c with
    | 0 => 1
    | 1 => x k
    | 2 => x k * x k
    | 3 => y k
    | 4 => y k * y k
    | _ => x k * y k
  let normalMat : ℕ → ℕ → ℚ := fun a b =>
    ((List.range (n * n)).map fun k => col a k * col b k).sum
  let pinvRow5 : ℕ → ℚ := fun k =>
    ((List.range 6).map fun c => invK 6 normalMat 5 c * col c k).sum
  ⟨n, n, fun a b => pinvRow5 (a * n + b)⟩

/-- Sum over the kernel window centred at (i, j): NaN if any input cell in the
window is NaN (IEEE accumulation), as in util.fast_symmetric_convolve. -/
def winSum (input : Arr) (kernel : Kern) (sfy sfx i j : ℕ) : Cell :=
  optSum (((List.range (2 * sfy + 1)).map fun a =>
    (List.range (2 * sfx + 1)).map fun b =>
      (get2 input (i + a - sfy) (j + b - sfx)).map fun v => v * kernel.entry a b).flatten)

/-- One output cell of util.fast_symmetric_convolve: the window sum on the
interior (at least the kernel half-width from every edge), NaN elsewhere. -/
def convEntry (input : Arr) (kernel : Kern) (i j : ℕ) : Cell :=
  let sfy := (kernel.rows - 1) / 2
  let sfx := (kernel.cols - 1) / 2
  if sfy ≤ i ∧ i + sfy < input.length ∧ sfx ≤ j ∧ j + sfx < ncols input then
    winSum input kernel sfy sfx i j
  else none

/-- util.fast_symmetric_convolve: dense 2-D convolution over the interior
region only; the result starts as all-NaN and cells within the kernel
half-widths of an edge stay NaN. -/
def fast_symmetric_convolve (input : Arr) (kernel : Kern) : Arr :=
  (List.range input.length).map fun i =>
    (List.range (ncols input)).map fun j => convEntry input kernel i j

/-- Forc._compute_forc_sg: -0.5 times the convolution with the SG kernel. -/
def compute_forc_sg (m : Arr) (sf : ℕ) (step_x step_y : ℚ) : Arr :=
  (fast_symmetric_convolve m (sg_kernel sf step_x step_y)).map fun row =>
    row.map (optScale (-(1 / 2)))

/-- Value j of np.linspace(a, b, n) for n points (numpy returns [a] for n=1). -/
def linspace (a b : ℚ) (n j : ℕ) : ℚ :=
  if n ≤ 1 then a else a + (j : ℚ) * (b - a) / ((n : ℚ) - 1)

/-- np.concatenate along axis 1: fails with ValueError when row counts differ. -/
def concatCols (x y : Arr) : Except Err Arr :=
  if x.length = y.length then .ok (List.zipWith (· ++ ·) x y) else .error .valueError

/-- Forc._extend_flat on one row: fill the leading NaN run with the first
finite value; an all-NaN row raises ValueError. -/
def extendFlatRow (row : Row) : Except Err Row :=
  match argFirstNotNan row with
  | none => .error .valueError
  | some j => .ok (List.replicate j ((row[j]?).join) ++ row.drop j)

/-- Forc._extend_flat: row-by-row in-place fill; a failing row leaves the rows
before it already modified (partial mutation), as in the source loop. -/
def extendFlat : Arr → Arr × Except Err Unit
  | [] => ([], .ok ())
  | r :: rs =>
    match extendFlatRow r with
    | .error e => (r :: rs, .error e)
    | .ok r' =>
      let res := extendFlat rs
      (r' :: res.1, res.2)

/-- Forc._extend_slope on one row: line-fit the first n_fit_points valid
samples and evaluate the line over the leading NaN run. -/
def extendSlopeRow (hrow mrow : Row) (nfp : ℕ) : Except Err Row :=
  match argFirstNotNan mrow with
  | none => .error .valueError
  | some j =>
    match lstsqLine (List.zipWith Prod.mk ((hrow.drop j).take nfp) ((mrow.drop j).take nfp)) with
    | .error e => .error e
    | .ok (a, b) =>
      .ok (((List.range j).map fun t => ((hrow[t]?).join).map fun x => a * x + b) ++ mrow.drop j)

/-- Forc._extend_slope: row-by-row in-place fill with partial mutation on a
failing row, as in the source loop. -/
def extendSlope (nfp : ℕ) : Arr → Arr → Arr × Except Err Unit
  | _, [] => ([], .ok ())
  | hs, r :: rs =>
    match extendSlopeRow (hs.headD []) r nfp with
    | .error e => (r :: rs, .error e)
    | .ok r' =>
      let res := extendSlope nfp (hs.drop 1) rs
      (r' :: res.1, res.2)

/-- Concatenate the NaN padding block onto the temperature array when present
(the final step of _extend_dataset). -/
def extendTemp (d : Forc) (nanBlock : Arr) : Forc × Except Err Unit :=
  match d.temperature with
  | none => (d, .ok ())
  | some t =>
    match concatCols nanBlock t with
    | .error e => (d, .error e)
    | .ok t' => ({ d with temperature := some t' }, .ok ())

/-- Forc._extend_dataset.  Mutates the receiver: self.h, self.hr and self.m
are reassigned to padded arrays before the fill policy is dispatched, so an
unknown policy raises NotImplementedError with the padding already in place.
The h padding per row is np.linspace(hmin - (2*sf+1)*step, hmin, 2*sf+1) and
the hr padding repeats column 0 of hr; NaN hmin or step gives NaN padding. -/
def extend_dataset (d : Forc) (sf : ℕ) (method : String) (nfp : ℕ) :
    Forc × Except Err Unit :=
  if method = "truncate" then (d, .ok ())
  else
    let lsv : ℕ → Cell := fun j =>
      match d.hmin, d.step with
      | some h0, some st => some (linspace (h0 - (2 * sf + 1) * st) h0 (2 * sf + 1) j)
      | _, _ => none
    let hExt : Arr := d.hr.map fun _ => (List.range (2 * sf + 1)).map lsv
    let hrExt : Arr := d.hr.map fun row => (List.range (2 * sf + 1)).map fun _ => (row[0]?).join
    let nanBlock : Arr := d.hr.map fun _ => List.replicate (2 * sf + 1) none
    match concatCols hExt d.h with
    | .error e => (d, .error e)
    | .ok h' =>
      let d1 : Forc := { d with h := h' }
      match concatCols hrExt d.hr with
      | .error e => (d1, .error e)
      | .ok hr' =>
        let d2 : Forc := { d1 with hr := hr' }
        match concatCols nanBlock d.m with
        | .error e => (d2, .error e)
        | .ok mcat =>
          let d3 : Forc := { d2 with m := mcat }
          if method = "flat" then
            let res := extendFlat mcat
            let d4 : Forc := { d3 with m := res.1 }
            match res.2 with
            | .error err => (d4, .error err)
            | .ok () => extendTemp d4 nanBlock
          else if method = "slope" then
            let res := extendSlope nfp d3.h mcat
            let d4 : Forc := { d3 with m := res.1 }
            match res.2 with
            | .error err => (d4, .error err)
            | .ok () => extendTemp d4 nanBlock
          else (d3, .error .notImplementedError)

/-- Forc.compute_forc_distribution.  The sf argument is accepted and logged
but the source passes the literal 3 both to _extend_dataset and to
_compute_forc_sg.  Extension runs only when rho is absent, mutating the
receiver; the result is a fresh Dataset built from the (possibly extended)
receiver arrays plus the new distribution.  A NaN step would make
np.linalg.pinv fail on the NaN kernel mesh (LinAlgError), modelled as a
numerical error. -/
def compute_forc_distribution (d : Forc) (sf : ℕ) (method extension : String)
    (nfp : ℕ) : Forc × Except Err Forc :=
  let ext := if d.rho = none then extend_dataset d 3 extension nfp else (d, .ok ())
  match ext.2 with
  | .error e => (ext.1, .error e)
  | .ok () =>
    let d1 := ext.1
    if method = "savitzky-golay" then
      match d1.step with
      | none => (d1, .error .numericalError)
      | some s =>
        let rho := compute_forc_sg d1.m 3 s s
        (d1, .ok (mkUniformForc d1.h d1.hr d1.m d1.temperature (some rho)))
    else (d1, .error .notImplementedError)

/-!
Parser model (class PMCImporter).  A file is a list of lines with the
trailing newline stripped; Python's float() strips surrounding whitespace, so
the stripped form parses identically.  All string work is done on the
underlying character lists so every definition reduces in the kernel.
-/

/-- Character-level split on commas, matching str.split(sep=` `,` `): the empty
string yields one empty field, a trailing comma an empty last field. -/
def splitCells : List Char → List (List Char)
  | [] => [[]]
  | c :: rest =>
    if c = ',' then [] :: splitCells rest
    else
      match splitCells rest with
      | [] => [[c]]
      | f :: fs => (c :: f) :: fs

/-- Comma-split of a line into field strings. -/
def pySplit (s : String) : List String := (splitCells s.data).map fun cs => ⟨cs⟩

/-- Whitespace characters stripped by Python's float(). -/
def isSpaceChar (c : Char) : Bool := c = ' ' || c = '\t' || c = '\n' || c = '\r'

/-- Natural number from a run of decimal digits. -/
def natOfDigits (l : List Char) : ℕ := l.foldl (fun acc c => 10 * acc + (c.toNat - 48)) 0

/-- Split at the first `.`, keeping the rest (a second dot is left in place and
invalidates the fractional digits). -/
def splitDot : List Char → List Char × Option (List Char)
  | [] => ([], none)
  | c :: rest =>
    if c = '.' then ([], some rest)
    else
      let r := splitDot rest
      (c :: r.1, r.2)

/-- Split at the first exponent marker e or E. -/
def splitExp : List Char → List Char × Option (List Char)
  | [] => ([], none)
  | c :: rest =>
    if c = 'e' || c = 'E' then ([], some rest)
    else
      let r := splitExp rest
      (c :: r.1, r.2)

/-- Unsigned decimal mantissa: digits with an optional dot, at least one digit
in total (accepts 12, 12., .5, 1.25). -/
def parseMantissa (l : List Char) : Option ℚ :=
  match splitDot l with
  | (ip, none) =>
    if ip ≠ [] ∧ ip.all Char.isDigit then some (natOfDigits ip) else none
  | (ip, some fp) =>
    if (ip ≠ [] ∨ fp ≠ []) ∧ ip.all Char.isDigit ∧ fp.all Char.isDigit then
      some ((natOfDigits ip : ℚ) + (natOfDigits fp : ℚ) / (10 : ℚ) ^ fp.length)
    else none

/-- Signed decimal mantissa. -/
def parseSignedMantissa : List Char → Option ℚ
  | '+' :: rest => parseMantissa rest
  | '-' :: rest => (parseMantissa rest).map Neg.neg
  | l => parseMantissa l

/-- Signed integer exponent. -/
def parseSignedInt : List Char → Option ℤ
  | '+' :: rest => if rest ≠ [] ∧ rest.all Char.isDigit then some (natOfDigits rest) else none
  | '-' :: rest => if rest ≠ [] ∧ rest.all Char.isDigit then some (-(natOfDigits rest : ℤ)) else none
  | l => if l ≠ [] ∧ l.all Char.isDigit then some (natOfDigits l : ℤ) else none

/-- Python float() on the decimal notations the PMC format uses (sign, digits,
optional fraction, optional e/E exponent, surrounding whitespace); inf/nan
literals and underscores are not modelled.  Returns NaN-free exact values;
an unparsable field is `none` (a Python ValueError at the call site). -/
def pyFloat (s : String) : Option ℚ :=
  let l := ((s.data.dropWhile isSpaceChar).reverse.dropWhile isSpaceChar).reverse
  match splitExp l with
  | (mant, none) => parseSignedMantissa mant
  | (mant, some ex) =>
    match parseSignedMantissa mant, parseSignedInt ex with
    | some m, some e => some (m * (10 : ℚ) ^ e)
    | _, _ => none

/-- Does the line begin with + or -, as in lines[i][0] in [`+`, `-`]
(readlines never yields an empty string, and on a bare newline the first
character is the newline, giving False either way). -/
def startsSign (l : String) : Bool :=
  match l.data with
  | [] => false
  | c :: _ => c = '+' || c = '-'

/-- Does the line begin with the literal token Hb1 (lines[i][:3] == Hb1). -/
def startsHb1 (l : String) : Bool :=
  match l.data with
  | 'H' :: 'b' :: '1' :: _ => true
  | _ => false

/-- PMCImporter._has_drift_points: scan every line of the file for Hb1. -/
def hasDriftPoints (lines : List String) : Bool := lines.any startsHb1

/-- PMCImporter._lines_have_temperature: the line splits into exactly 3
comma-separated fields. -/
def linesHaveTemperature (line : String) : Bool := (pySplit line).length = 3

/-- PMCImporter._find_first_data_point: index of the first line beginning with
+ or -, DataFormatError when no such line exists. -/
def findFirstDataPoint (lines : List String) : Except Err ℕ :=
  match lines.findIdx? startsSign with
  | some i => .ok i
  | none => .error .dataFormatError

/-- PMCImporter._extract_drift_point: float of the comma-separated field at
index 1 (the second field) of the line. -/
def extract_drift_point (line : String) : Except Err ℚ :=
  match (pySplit line)[1]? with
  | none => .error .indexError
  | some f =>
    match pyFloat f with
    | none => .error .valueError
    | some q => .ok q

/-- One reversal curve as accumulated by _extract_next_forc. -/
structure Curve where
  h : List ℚ
  hr : List ℚ
  m : List ℚ
  t : List ℚ
  deriving DecidableEq

/-- Loop of PMCImporter._extract_next_forc: consume consecutive sign-prefixed
data lines;
field 0 is h, the curve's first h is appended as hr for every sample, field 1
is m, field 2 is temperature when the file has a temperature column.  Running
past the end of the file while inside a curve is Python's IndexError. -/
def enfLoop (tf : Bool) (first : Option ℚ) : List String → Except Err Curve
  | [] => .error .indexError
  | l :: rest =>
    if startsSign l then
      match (pySplit l)[0]? with
      | none => .error .indexError
      | some f0 =>
        match pyFloat f0 with
        | none => .error .valueError
        | some hv =>
          match (pySplit l)[1]? with
          | none => .error .indexError
          | some f1 =>
            match pyFloat f1 with
            | none => .error .valueError
            | some mv =>
              if tf then
                match (pySplit l)[2]? with
                | none => .error .indexError
                | some f2 =>
                  match pyFloat f2 with
                  | none => .error .valueError
                  | some tv =>
                    (enfLoop tf (some (first.getD hv)) rest).map fun c =>
                      ⟨hv :: c.h, first.getD hv :: c.hr, mv :: c.m, tv :: c.t⟩
              else
                (enfLoop tf (some (first.getD hv)) rest).map fun c =>
                  ⟨hv :: c.h, first.getD hv :: c.hr, mv :: c.m, c.t⟩
    else .ok ⟨[], [], [], []⟩

/-- PMCImporter._extract_next_forc: the extracted curve and the number of
lines consumed (len of the h list). -/
def extract_next_forc (tf : Bool) (s : List String) : Except Err (Curve × ℕ) :=
  (enfLoop tf none s).map fun c => (c, c.h.length)

/-- Accumulated parser output (the importer's h/hr/m/temperature/drift_points
lists). -/
structure PAcc where
  hs : List (List ℚ)
  hrs : List (List ℚ)
  ms : List (List ℚ)
  ts : List (List ℚ)
  ds : List ℚ
  deriving DecidableEq

/-- With-drift-points extraction loop of _extract_raw_data, phrased on the
suffix of the file from the current position: record the drift point from the
current line, skip two lines, extract a curve, skip one separator line. -/
def loopDrift (tf : Bool) (s : List String) : Except Err PAcc :=
  match s with
  | [] => .ok ⟨[], [], [], [], []⟩
  | l :: rest =>
    if startsSign l then
      match extract_drift_point l with
      | .error e => .error e
      | .ok dv =>
        match extract_next_forc tf (rest.drop 1) with
        | .error e => .error e
        | .ok (c, cnt) =>
          match loopDrift tf (rest.drop (cnt + 2)) with
          | .error e => .error e
          | .ok acc =>
            .ok ⟨c.h :: acc.hs, c.hr :: acc.hrs, c.m :: acc.ms, c.t :: acc.ts, dv :: acc.ds⟩
    else .ok ⟨[], [], [], [], []⟩
termination_by s.length
decreasing_by simp [List.length_drop]; omega

/-- Without-drift-points extraction loop of _extract_raw_data: extract a
curve, record the last curve line as the implicit drift point, skip one
separator line. -/
def loopNoDrift (tf : Bool) (s : List String) : Except Err PAcc :=
  match s with
  | [] => .ok ⟨[], [], [], [], []⟩
  | l :: rest =>
    if startsSign l then
      match extract_next_forc tf (l :: rest) with
      | .error e => .error e
      | .ok (c, cnt) =>
        match (l :: rest)[cnt - 1]? with
        | none => .error .indexError
        | some dl =>
          match extract_drift_point dl with
          | .error e => .error e
          | .ok dv =>
            match loopNoDrift tf (rest.drop cnt) with
            | .error e => .error e
            | .ok acc =>
              .ok ⟨c.h :: acc.hs, c.hr :: acc.hrs, c.m :: acc.ms, c.t :: acc.ts, dv :: acc.ds⟩
    else .ok ⟨[], [], [], [], []⟩
termination_by s.length
decreasing_by simp [List.length_drop]; omega

/-- Raw parse result: ragged per-curve sequences plus the drift sequence. -/
structure RawData where
  h : List (List ℚ)
  hr : List (List ℚ)
  m : List (List ℚ)
  temperature : Option (List (List ℚ))
  drift_points : List ℚ
  deriving DecidableEq

/-- Package the accumulated lists; temperature is kept only when the file has
a temperature column (self.temperature stays None otherwise). -/
def assembleRaw (tf : Bool) (acc : PAcc) : RawData :=
  ⟨acc.hs, acc.hrs, acc.ms, if tf then some acc.ts else none, acc.ds⟩

/-- PMCImporter._extract_raw_data: find the first data line (everything before
it is header, except that _has_drift_points scans the whole file for Hb1),
decide the temperature mode from that line's field count, then run the
extraction loop of the detected mode on the file suffix. -/
def extract_raw_data (lines : List String) : Except Err RawData :=
  match lines.findIdx? startsSign with
  | none => .error .dataFormatError
  | some i =>
    let tf := linesHaveTemperature ((lines[i]?).getD "")
    if hasDriftPoints lines then
      (loopDrift tf (lines.drop i)).map (assembleRaw tf)
    else
      (loopNoDrift tf (lines.drop i)).map (assembleRaw tf)

/-- A data line that parses in temperature mode: sign-prefixed, with float
fields at indices 0, 1 and 2. -/
def lineOkT (l : String) : Bool :=
  startsSign l &&
  (((pySplit l)[0]?).bind pyFloat).isSome &&
  (((pySplit l)[1]?).bind pyFloat).isSome &&
  (((pySplit l)[2]?).bind pyFloat).isSome

/-!
Concrete datasets used as counterexamples and witnesses.
-/

/-- Concrete 2x2 Dataset with finite moment, no temperature, no distribution. -/
def dRecv : Forc := mkUniformForc
  [[some 0, some 1], [some 0, some 1]]
  [[some 0, some 0], [some 1, some 1]]
  [[some 1, some 2], [some 3, some 4]]
  none none

/-- Concrete 2x2 Dataset used for the failed-extension-policy scenario. -/
def dFail : Forc := mkUniformForc
  [[some 0, some 2], [some 0, some 2]]
  [[some 0, some 0], [some 2, some 2]]
  [[some 5, some 6], [some 7, some 8]]
  none none

/-- Concrete 1x1 Dataset with finite moment and neither rho nor temperature. -/
def dPres : Forc := mkUniformForc [[some 1]] [[some 1]] [[some 1]] none none

/-- Concrete 5x5 Dataset with an all-finite moment grid. -/
def dGrid5 : Forc := mkUniformForc
  [[some 0, some 1, some 2, some 3, some 4],
   [some 0, some 1, some 2, some 3, some 4],
   [some 0, some 1, some 2, some 3, some 4],
   [some 0, some 1, some 2, some 3, some 4],
   [some 0, some 1, some 2, some 3, some 4]]
  [[some 0, some 0, some 0, some 0, some 0],
   [some 1, some 1, some 1, some 1, some 1],
   [some 2, some 2, some 2, some 2, some 2],
   [some 3, some 3, some 3, some 3, some 3],
   [some 4, some 4, some 4, some 4, some 4]]
  [[some 0, some 1, some 2, some 3, some 4],
   [some 1, some 2, some 3, some 4, some 5],
   [some 2, some 3, some 4, some 5, some 6],
   [some 3, some 4, some 5, some 6, some 7],
   [some 4, some 5, some 6, some 7, some 8]]
  none none

/-- Concrete 2x2 Dataset whose moment holds the two distinct values 0 and 2. -/
def dNorm : Forc := mkUniformForc
  [[some 0, some 1], [some 0, some 1]]
  [[some 0, some 0], [some 1, some 1]]
  [[some 0, some 2], [some 1, none]]
  none none

/-- Concrete 7x7 all-finite moment array with a single NaN at (3, 4). -/
def mHole : Arr :=
  (List.range 7).map fun i => (List.range 7).map fun j =>
    if i = 3 ∧ j = 4 then none else some ((i : ℚ) - j)

/-!
Helper lemmas.
-/

/-- Reading a cell of a rectangular grid built from ranges. -/
theorem get2_grid (R C : ℕ) (F : ℕ → ℕ → Cell) (i j : ℕ) :
    get2 ((List.range R).map fun a => (List.range C).map fun b => F a b) i j
      = if i < R ∧ j < C then F i j else none := by
  unfold get2
  by_cases hi : i < R
  · rw [List.getElem?_map, List.getElem?_range hi]
    by_cases hj : j < C
    · simp [List.getElem?_map, List.getElem?_range hj, hi, hj]
    · have hC : ((List.range C).map fun b => F i b)[j]? = none := by
        rw [List.getElem?_eq_none]
        simpa using Nat.le_of_not_lt hj
      simp [hC, hi, hj]
  · have hR : ((List.range R).map fun a => (List.range C).map fun b => F a b)[i]? = none := by
      rw [List.getElem?_eq_none]
      simpa using Nat.le_of_not_lt hi
    simp [hR, hi]

/-- Reading a cell of a grid with row-dependent width built from ranges. -/
theorem get2_gridD (R : ℕ) (g : ℕ → ℕ) (F : ℕ → ℕ → Cell) (i j : ℕ) :
    get2 ((List.range R).map fun a => (List.range (g a)).map fun b => F a b) i j
      = if i < R ∧ j < g i then F i j else none := by
  unfold get2
  by_cases hi : i < R
  · rw [List.getElem?_map, List.getElem?_range hi]
    by_cases hj : j < g i
    · simp [List.getElem?_map, List.getElem?_range hj, hi, hj]
    · have hC : ((List.range (g i)).map fun b => F i b)[j]? = none := by
        rw [List.getElem?_eq_none]
        simpa using Nat.le_of_not_lt hj
      simp [hC, hi, hj]
  · have hR : ((List.range R).map fun a => (List.range (g a)).map fun b => F a b)[i]? = none := by
      rw [List.getElem?_eq_none]
      simpa using Nat.le_of_not_lt hi
    simp [hR, hi]

/-- A NaN term makes the IEEE accumulation NaN. -/
theorem optSum_none {l : List Cell} (h : none ∈ l) : optSum l = none := by
  induction l with
  | nil => cases h
  | cons a t ih =>
    rcases List.mem_cons.mp h with h | h
    · subst h
      simp [optSum, optAdd]
    · have ht := ih h
      simp only [optSum] at ht ⊢
      rw [List.foldr_cons, ht]
      cases a <;> simp [optAdd]

/-- Entrywise transforms that fix NaN commute with cell reads. -/
theorem get2_entrymap (g : Cell → Cell) (hg : g none = none) (a : Arr) (i j : ℕ) :
    get2 (a.map fun row => row.map g) i j = g (get2 a i j) := by
  unfold get2
  rw [List.getElem?_map]
  cases hrow : a[i]? with
  | none => simp [hg]
  | some row =>
    simp only [Option.map_some']
    show ((row.map g)[j]?).join = g (row[j]?).join
    rw [List.getElem?_map]
    cases hc : row[j]? with
    | none => simp [hg]
    | some c => simp

/-!
Claim theorems.
-/

/-- C8: in the convolution that computes the FORC distribution, every interior
output cell whose (2*sf+1)-by-(2*sf+1) input neighborhood contains a missing
value is itself missing; missing inputs propagate through the window sum and
through the -0.5 scaling, never coerced to zero. -/
theorem convolve_missing_propagates (m : Arr) (sf : ℕ) (sx sy : ℚ) (i j a b : ℕ)
    (hi1 : sf ≤ i) (hi2 : i + sf < m.length) (hj1 : sf ≤ j) (hj2 : j + sf < ncols m)
    (ha : a < 2 * sf + 1) (hb : b < 2 * sf + 1)
    (hmiss : get2 m (i + a - sf) (j + b - sf) = none) :
    get2 (fast_symmetric_convolve m (sg_kernel sf sx sy)) i j = none ∧
    get2 (compute_forc_sg m sf sx sy) i j = none := by
  have hrows : (sg_kernel sf sx sy).rows = 2 * sf + 1 := rfl
  have hcols : (sg_kernel sf sx sy).cols = 2 * sf + 1 := rfl
  have hsf : (2 * sf + 1 - 1) / 2 = sf := by omega
  have hconv : get2 (fast_symmetric_convolve m (sg_kernel sf sx sy)) i j = none := by
    unfold fast_symmetric_convolve
    rw [get2_grid]
    rw [if_pos ⟨lt_of_le_of_lt (Nat.le_add_right i sf) hi2,
                lt_of_le_of_lt (Nat.le_add_right j sf) hj2⟩]
    unfold convEntry
    simp only [hrows, hcols, hsf]
    rw [if_pos ⟨hi1, hi2, hj1, hj2⟩]
    apply optSum_none
    apply List.mem_flatten.mpr
    refine ⟨(List.range (2 * sf + 1)).map fun b' =>
      (get2 m (i + a - sf) (j + b' - sf)).map fun v => v * (sg_kernel sf sx sy).entry a b', ?_, ?_⟩
    · exact List.mem_map.mpr ⟨a, List.mem_range.mpr ha, rfl⟩
    · exact List.mem_map.mpr ⟨b, List.mem_range.mpr hb, by rw [hmiss]; rfl⟩
  refine ⟨hconv, ?_⟩
  unfold compute_forc_sg
  rw [get2_entrymap _ rfl, hconv]
  rfl

/-- Witness for C8 at a concrete input: the 7x7 array with one hole at (3, 4)
yields a missing distribution cell at (3, 3), whose window covers the hole. -/
theorem convolve_missing_propagates_witness :
    get2 (fast_symmetric_convolve mHole (sg_kernel 3 1 1)) 3 3 = none ∧
    get2 (compute_forc_sg mHole 3 1 1) 3 3 = none :=
  convolve_missing_propagates mHole 3 1 1 3 3 3 4 (by decide) (by decide) (by decide)
    (by decide) (by decide) (by decide) (by decide)

/-- Reading a cell of the masked copy: NaN exactly where the mask condition
holds, the original value elsewhere (out-of-range reads are NaN on both
sides). -/
theorem get2_maskedArr (d : Forc) (data : Arr) (i j : ℕ) :
    get2 (maskedArr d data) i j
      = if maskCond (get2 d.h i j) (get2 d.hr i j) d.step then none else get2 data i j := by
  unfold maskedArr
  rw [get2_gridD data.length (fun a => ((data[a]?).getD []).length) (maskEntry d data) i j]
  by_cases hin : i < data.length ∧ j < ((data[i]?).getD []).length
  · rw [if_pos hin]
    rfl
  · rw [if_neg hin]
    have hnone : get2 data i j = none := by
      unfold get2
      rcases Nat.lt_or_ge i data.length with hi | hi
      · cases hrow : data[i]? with
        | none => rfl
        | some row =>
          have hj : ¬j < row.length := by
            intro hj
            exact hin ⟨hi, by simp [hrow, hj]⟩
          show (row[j]?).join = none
          rw [List.getElem?_eq_none (Nat.le_of_not_lt hj)]
          rfl
      · rw [List.getElem?_eq_none hi]
        rfl
    rw [hnone, ite_self]

/-- C7: masking the moment array nulls exactly the cells whose field value is
strictly below the reversal field minus half the grid step; every other cell,
including cells with a NaN field or reversal field, keeps its original value. -/
theorem get_masked_condition (d : Forc) (s : ℚ) (hs : d.step = some s) (i j : ℕ) :
    (∀ a b : ℚ, get2 d.h i j = some a → get2 d.hr i j = some b →
      (get_masked d d.m (MaskArg.Bb true)).map (fun arr => get2 arr i j)
        = .ok (if a < b - s / 2 then none else get2 d.m i j))
    ∧ ((get2 d.h i j = none ∨ get2 d.hr i j = none) →
      (get_masked d d.m (MaskArg.Bb true)).map (fun arr => get2 arr i j)
        = .ok (get2 d.m i j)) := by
  have hmb : (get_masked d d.m (MaskArg.Bb true)).map (fun arr => get2 arr i j)
      = .ok (get2 (maskedArr d d.m) i j) := rfl
  constructor
  · intro a b hha hhb
    rw [hmb, get2_maskedArr, hha, hhb, hs]
    simp [maskCond]
  · intro hor
    rw [hmb, get2_maskedArr]
    rcases hor with hn | hn <;> rw [hn] <;> simp [maskCond]

/-- Witness for C7 on the concrete Dataset dRecv at cell (0, 0). -/
theorem get_masked_condition_witness :
    (get_masked dRecv dRecv.m (MaskArg.Bb true)).map (fun arr => get2 arr 0 0)
      = .ok (if (0 : ℚ) < 0 - 1 / 2 then none else get2 dRecv.m 0 0) :=
  (get_masked_condition dRecv 1
    (by simp +decide [dRecv, mkUniformForc, determine_step, meanO, diffs, optSub])
    0 0).1 0 0 (by decide) (by decide)

/-- C5 is a code bug: all four presence predicates test the moment array, so
on a Dataset with a finite moment but no distribution and no temperature
array, has_rho and has_temperature still report true. -/
theorem presence_predicates_check_moment_bug :
    has_m dPres = true ∧
    has_rho dPres = true ∧ dPres.rho = none ∧
    has_temperature dPres = true ∧ dPres.temperature = none ∧
    has_rho_uncertainty dPres = true := by
  refine ⟨by decide, by decide, rfl, by decide, rfl, by decide⟩

/-- C10: slope correction with an explicit coefficient and min-max
normalization are out of place: the receiver is returned unchanged, and the
returned Dataset's field, reversal-field, temperature and distribution arrays
are the receiver's. -/
theorem slope_normalize_frame (d : Forc) (v : ℚ) :
    (slope_correction d none (some v)).1 = d
    ∧ ((slope_correction d none (some v)).2.map fun f => (f.h, f.hr, f.temperature, f.rho))
        = .ok (d.h, d.hr, d.temperature, d.rho)
    ∧ (normalize d "minmax").1 = d
    ∧ ((normalize d "minmax").2.map fun f => (f.h, f.hr, f.temperature, f.rho))
        = .ok (d.h, d.hr, d.temperature, d.rho) := by
  refine ⟨rfl, rfl, rfl, ?_⟩
  simp [normalize, normResult, mkUniformForc, Except.map]

/-- C6: on a moment array with two distinct finite values (equivalently,
finite nanmin strictly below finite nanmax), min-max normalization returns a
new Dataset whose moment is 1 - 2(max - m)/(max - min) elementwise, sending
every maximum cell to +1 and every minimum cell to -1 exactly, and leaves the
receiver unchanged. -/
theorem normalize_minmax_formula (d : Forc) (M mn : ℚ)
    (hM : aNanMax d.m = some M) (hmn : aNanMin d.m = some mn) (hlt : mn < M) :
    (normalize d "minmax").1 = d
    ∧ ((normalize d "minmax").2.map fun f => f.m)
        = .ok (d.m.map fun row => row.map (Option.map fun x => 1 - 2 * (M - x) / (M - mn)))
    ∧ (∀ i j, get2 d.m i j = some M →
        ((normalize d "minmax").2.map fun f => get2 f.m i j) = .ok (some 1))
    ∧ (∀ i j, get2 d.m i j = some mn →
        ((normalize d "minmax").2.map fun f => get2 f.m i j) = .ok (some (-1))) := by
  have hMne : M - mn ≠ 0 := sub_ne_zero.mpr (ne_of_gt hlt)
  have hfun : minmaxEntry (some M) (some mn) = Option.map fun x => 1 - 2 * (M - x) / (M - mn) := by
    funext x
    cases x with
    | none => rfl
    | some v => simp [minmaxEntry, ne_of_gt hlt]
  have key : minmaxArr d.m
      = d.m.map fun row => row.map (Option.map fun x => 1 - 2 * (M - x) / (M - mn)) := by
    unfold minmaxArr
    simp only [hM, hmn, hfun]
  have hres : (normalize d "minmax").2 = .ok (mkUniformForc d.h d.hr (minmaxArr d.m)
      d.temperature d.rho) := by
    simp [normalize, normResult]
  refine ⟨rfl, ?_, ?_, ?_⟩
  · rw [hres]
    show Except.ok (minmaxArr d.m) = _
    rw [key]
  · intro i j hij
    rw [hres]
    show Except.ok (get2 (minmaxArr d.m) i j) = _
    rw [key, get2_entrymap _ rfl, hij]
    simp
  · intro i j hij
    rw [hres]
    show Except.ok (get2 (minmaxArr d.m) i j) = _
    rw [key, get2_entrymap _ rfl, hij]
    simp only [Option.map_some']
    rw [mul_div_assoc, div_self hMne, mul_one]
    norm_num

/-- Witness for C6 on dNorm (values 0, 2, 1 and one NaN): the maximum cell at
(0, 1) maps to +1. -/
theorem normalize_minmax_formula_witness :
    ((normalize dNorm "minmax").2.map fun f => get2 f.m 0 1) = .ok (some 1) :=
  (normalize_minmax_formula dNorm 2 0
    (by simp +decide [dNorm, mkUniformForc, aNanMax, finiteVals])
    (by simp +decide [dNorm, mkUniformForc, aNanMin, finiteVals])
    (by norm_num)).2.2.1 0 1 (by decide)

/-- Counterexample to C1: distribution computation with the default flat
extension on a Dataset without a distribution reassigns the receiver's moment
array (padded and filled in place), so the receiver's array fields are not
left unchanged. -/
theorem compute_forc_distribution_mutates_receiver_cex :
    (compute_forc_distribution dRecv 3 "savitzky-golay" "flat" 10).1.m ≠ dRecv.m := by
  simp +decide [dRecv, mkUniformForc, compute_forc_distribution, extend_dataset, concatCols,
    extendFlat, extendFlatRow, argFirstNotNan, extendTemp, determine_step, meanO, diffs,
    optSub, aMin, finiteVals, get2, linspace]

/-- C1 as amended: slope correction and normalization leave the receiver
unchanged for every argument; distribution computation does return a new
Dataset, but when no distribution is present it first extends the receiver's
arrays in place (shown at the concrete dRecv), as does the edge-extension
operation itself. -/
theorem transform_receiver_mutation_amended :
    (∀ (d : Forc) (hs v : Option ℚ), (slope_correction d hs v).1 = d)
    ∧ (∀ (d : Forc) (meth : String), (normalize d meth).1 = d)
    ∧ (compute_forc_distribution dRecv 3 "savitzky-golay" "flat" 10).2.isOk = true
    ∧ (compute_forc_distribution dRecv 3 "savitzky-golay" "flat" 10).1.m ≠ dRecv.m
    ∧ (extend_dataset dRecv 3 "flat" 10).1.m ≠ dRecv.m := by
  refine ⟨fun d hs v => rfl, fun d meth => rfl, ?_, ?_, ?_⟩ <;>
    simp +decide [dRecv, mkUniformForc, compute_forc_distribution, extend_dataset, concatCols,
      extendFlat, extendFlatRow, argFirstNotNan, extendTemp, determine_step, meanO, diffs,
      optSub, aMin, finiteVals, get2, linspace, Except.isOk, Except.toBool]

/-- C2 is a code bug: the distribution computation ignores its sf argument
(the source hardcodes sf=3 in both internal calls), so the result is the same
for every sf; at sf=1 on the all-finite 5x5 grid the cell (1, 1), which a
half-width-1 kernel would define, is missing because the hardcoded 7x7 kernel
leaves a 3-cell border.  The kernel built for a given sf does have shape
(2*sf+1, 2*sf+1). -/
theorem compute_forc_distribution_ignores_sf_bug :
    (∀ (d : Forc) (sf sf' nfp : ℕ) (meth ext : String),
        compute_forc_distribution d sf meth ext nfp
          = compute_forc_distribution d sf' meth ext nfp)
    ∧ ((compute_forc_distribution dGrid5 1 "savitzky-golay" "truncate" 10).2.map
        fun f => get2 (f.rho.getD []) 1 1) = .ok none
    ∧ aAllFinite dGrid5.m = true ∧ dGrid5.m.length = 5 ∧ ncols dGrid5.m = 5
    ∧ (sg_kernel 1 1 1).rows = 2 * 1 + 1 ∧ (sg_kernel 3 1 1).rows = 2 * 3 + 1 := by
  refine ⟨fun _ _ _ _ _ _ => rfl, ?_, by decide, by decide, by decide, rfl, rfl⟩
  have hstep : dGrid5.step = some 1 := by
    simp +decide [dGrid5, mkUniformForc, determine_step, meanO, diffs, optSub]
    norm_num
  have h11 : get2 (compute_forc_sg dGrid5.m 3 1 1) 1 1 = none := by
    unfold compute_forc_sg fast_symmetric_convolve
    rw [get2_entrymap _ rfl, get2_grid]
    have hl : dGrid5.m.length = 5 := by decide
    have hc : ncols dGrid5.m = 5 := by decide
    rw [hl, hc]
    rw [if_pos (by omega)]
    have hkr : (sg_kernel 3 1 1).rows = 7 := rfl
    have hkc : (sg_kernel 3 1 1).cols = 7 := rfl
    simp [convEntry, hkr, hkc, hl, hc, optScale]
  have hres : (compute_forc_distribution dGrid5 1 "savitzky-golay" "truncate" 10).2
      = .ok (mkUniformForc dGrid5.h dGrid5.hr dGrid5.m dGrid5.temperature
          (some (compute_forc_sg dGrid5.m 3 1 1))) := by
    have hrho : dGrid5.rho = none := rfl
    simp [compute_forc_distribution, extend_dataset, hrho, hstep]
  rw [hres]
  show Except.ok (get2 (compute_forc_sg dGrid5.m 3 1 1) 1 1) = _
  rw [h11]

/-- Counterexample to C4: distribution computation with the unrecognized
extension policy given here fails with NotImplementedError but leaves the
receiver changed (its arrays were already reassigned to padded copies). -/
theorem failed_extension_mutates_receiver_cex :
    (compute_forc_distribution dFail 3 "savitzky-golay" "bogus" 10).2
        = .error .notImplementedError
    ∧ (compute_forc_distribution dFail 3 "savitzky-golay" "bogus" 10).1 ≠ dFail := by
  constructor <;>
    simp +decide [dFail, mkUniformForc, compute_forc_distribution, extend_dataset,
      concatCols, determine_step, meanO, diffs, optSub, aMin, finiteVals, linspace]

/-- Shape of _extend_dataset under an unknown extension policy: the padding
blocks have already been concatenated onto h, hr and m when
NotImplementedError is raised. -/
theorem extend_dataset_unknown_policy (d : Forc) (sf nfp : ℕ) (ext : String)
    (h1 : ext ≠ "truncate") (h2 : ext ≠ "flat") (h3 : ext ≠ "slope")
    (hlen : d.hr.length = d.h.length) (hlenm : d.m.length = d.hr.length) :
    ∃ hE hrE mE : Arr, hE.length = d.hr.length ∧ (∀ r ∈ hE, r.length = 2 * sf + 1) ∧
      extend_dataset d sf ext nfp
        = ({ d with h := List.zipWith (· ++ ·) hE d.h,
                    hr := List.zipWith (· ++ ·) hrE d.hr,
                    m := List.zipWith (· ++ ·) mE d.m }, .error .notImplementedError) := by
  refine ⟨d.hr.map fun _ => (List.range (2 * sf + 1)).map fun j =>
      (match d.hmin, d.step with
       | some h0, some st => some (linspace (h0 - (2 * sf + 1) * st) h0 (2 * sf + 1) j)
       | _, _ => none),
    d.hr.map fun row => (List.range (2 * sf + 1)).map fun _ => (row[0]?).join,
    d.hr.map fun _ => List.replicate (2 * sf + 1) none, ?_, ?_, ?_⟩
  · simp
  · intro r hr
    rcases List.mem_map.mp hr with ⟨row, _, rfl⟩
    simp
  · simp only [extend_dataset, if_neg h1, concatCols, List.length_map, hlen, hlenm,
      if_pos rfl, if_neg h2, if_neg h3, if_true]

/-- C4 as amended: a failed normalization leaves the receiver unchanged, but a
failed distribution computation does not: with an unrecognized extension
policy and no distribution present, the call fails with NotImplementedError
and the receiver's field array is left extended in place. -/
theorem failed_transform_state_amended (d : Forc) (sf nfp : ℕ) (ext : String)
    (hrho : d.rho = none) (hne : d.h ≠ [])
    (hlen : d.hr.length = d.h.length) (hlenm : d.m.length = d.hr.length)
    (h1 : ext ≠ "truncate") (h2 : ext ≠ "flat") (h3 : ext ≠ "slope") :
    (∀ meth : String, meth ≠ "minmax" →
        normalize d meth = (d, .error .notImplementedError))
    ∧ (compute_forc_distribution d sf "savitzky-golay" ext nfp).2
        = .error .notImplementedError
    ∧ (compute_forc_distribution d sf "savitzky-golay" ext nfp).1.h ≠ d.h := by
  obtain ⟨hE, hrE, mE, hElen, hEall, heq⟩ :=
    extend_dataset_unknown_policy d 3 nfp ext h1 h2 h3 hlen hlenm
  have hcomp : compute_forc_distribution d sf "savitzky-golay" ext nfp
      = ({ d with h := List.zipWith (· ++ ·) hE d.h,
                  hr := List.zipWith (· ++ ·) hrE d.hr,
                  m := List.zipWith (· ++ ·) mE d.m }, .error .notImplementedError) := by
    simp only [compute_forc_distribution, hrho, if_pos, heq]
  refine ⟨?_, ?_, ?_⟩
  · intro meth hmeth
    simp [normalize, normResult, hmeth]
  · rw [hcomp]
  · rw [hcomp]
    obtain ⟨hh, ht, hdh⟩ := List.exists_cons_of_ne_nil hne
    have hrne : 1 ≤ d.hr.length := by
      rw [hlen, hdh]
      simp
    have hEne : hE ≠ [] := by
      intro h0
      rw [h0] at hElen
      simp at hElen
      omega
    obtain ⟨e0, et, hdE⟩ := List.exists_cons_of_ne_nil hEne
    intro heq2
    simp only at heq2
    rw [hdh, hdE] at heq2
    simp only [List.zipWith_cons_cons, List.cons.injEq] at heq2
    have hlen0 : e0.length + hh.length = hh.length := by
      simpa using congrArg List.length heq2.1
    have h7 : e0.length = 2 * 3 + 1 := hEall e0 (by rw [hdE]; exact List.mem_cons_self _ _)
    omega

/-- Witness for C4 as amended, at the concrete Dataset dFail with extension
policy given as the unrecognized string bogus. -/
theorem failed_transform_state_amended_witness :
    normalize dFail "bogus" = (dFail, .error .notImplementedError)
    ∧ (compute_forc_distribution dFail 3 "savitzky-golay" "bogus" 10).2
        = .error .notImplementedError
    ∧ (compute_forc_distribution dFail 3 "savitzky-golay" "bogus" 10).1.h ≠ dFail.h :=
  have h := failed_transform_state_amended dFail 3 10 "bogus" rfl (by decide) (by decide)
    (by decide) (by decide) (by decide) (by decide)
  ⟨h.1 "bogus" (by decide), h.2.1, h.2.2⟩

/-- Behaviour of the curve-extraction loop on a run of fully parsing
temperature-mode data lines followed by a non-data line: it succeeds and
consumes exactly the data lines. -/
theorem enfLoop_all_ok (curve : List String) (sep : String) (rest : List String)
    (hall : curve.all lineOkT = true) (hsep : startsSign sep = false) :
    ∀ first, ∃ c : Curve, enfLoop true first (curve ++ sep :: rest) = .ok c
      ∧ c.h.length = curve.length := by
  induction curve with
  | nil =>
    intro first
    exact ⟨⟨[], [], [], []⟩, by simp [enfLoop, hsep], rfl⟩
  | cons l t ih =>
    intro first
    rw [List.all_cons, Bool.and_eq_true] at hall
    obtain ⟨hl, ht⟩ := hall
    unfold lineOkT at hl
    simp only [Bool.and_eq_true, Option.isSome_iff_exists] at hl
    obtain ⟨⟨⟨hsign, q0, hb0⟩, q1, hb1⟩, q2, hb2⟩ := hl
    obtain ⟨f0, hf0, hp0⟩ := Option.bind_eq_some.mp hb0
    obtain ⟨f1, hf1, hp1⟩ := Option.bind_eq_some.mp hb1
    obtain ⟨f2, hf2, hp2⟩ := Option.bind_eq_some.mp hb2
    obtain ⟨c, hc, hlen⟩ := ih ht (some (first.getD q0))
    refine ⟨⟨q0 :: c.h, first.getD q0 :: c.hr, q1 :: c.m, q2 :: c.t⟩, ?_, by simp [hlen]⟩
    simp only [List.cons_append, enfLoop, hsign, if_pos, hf0, hp0, hf1, hp1, hf2, hp2,
      if_true, Except.map, List.append_eq, hc]

/-- C3 as amended: in the with-drift-points mode, the value recorded in the
DriftSequence for a curve is the float of the second comma-separated field of
its drift line (index 1), not the last field; the theorem covers the
temperature-present case (three-field drift line) the claim singles out. -/
theorem drift_point_second_field_amended (hb dl sep1 sep2 : String)
    (curve : List String) (fld : String) (q : ℚ)
    (hhb : startsSign hb = false)
    (hdrift : hasDriftPoints (hb :: dl :: sep1 :: (curve ++ [sep2])) = true)
    (hdl : startsSign dl = true)
    (htemp : (pySplit dl).length = 3)
    (hfld : (pySplit dl)[1]? = some fld) (hq : pyFloat fld = some q)
    (hall : curve.all lineOkT = true) (hsep2 : startsSign sep2 = false) :
    ((extract_raw_data (hb :: dl :: sep1 :: (curve ++ [sep2]))).map
      fun r => r.drift_points) = .ok [q] := by
  obtain ⟨c, hc, hlen⟩ := enfLoop_all_ok curve sep2 [] hall hsep2 none
  have hfind : (hb :: dl :: sep1 :: (curve ++ [sep2])).findIdx? startsSign = some 1 := by
    simp [List.findIdx?_cons, hhb, hdl]
  have htf : linesHaveTemperature ((hb :: dl :: sep1 :: (curve ++ [sep2]))[1]?.getD "")
      = true := by
    simp [linesHaveTemperature, htemp]
  have hdp : extract_drift_point dl = .ok q := by
    simp [extract_drift_point, hfld, hq]
  have henf : extract_next_forc true (curve ++ [sep2]) = .ok (c, curve.length) := by
    unfold extract_next_forc
    rw [hc]
    simp [Except.map, hlen]
  have hdropnil : (sep1 :: (curve ++ [sep2])).drop (curve.length + 2) = [] := by
    apply List.drop_eq_nil_of_le
    simp
  have hloop : loopDrift true (dl :: sep1 :: (curve ++ [sep2]))
      = .ok ⟨[c.h], [c.hr], [c.m], [c.t], [q]⟩ := by
    rw [loopDrift]
    simp only [hdl, if_pos, hdp, List.drop_succ_cons, List.drop_zero, henf, hdropnil, if_true]
    rw [loopDrift]
  unfold extract_raw_data
  rw [hfind]
  simp only [htf, if_pos hdrift, List.drop_succ_cons, List.drop_zero, hloop, Except.map,
    assembleRaw, if_true]

/-- Witness for C3 as amended: a one-curve drift-mode file whose drift line is
+1,2.5,300; the recorded drift value is 2.5, the second field. -/
theorem drift_point_second_field_amended_witness :
    ((extract_raw_data ["Hb1,x", "+1,2.5,300", "skip", "+1,5,300", "+2,6,301", "sep"]).map
      fun r => r.drift_points) = .ok [5 / 2] :=
  drift_point_second_field_amended "Hb1,x" "+1,2.5,300" "skip" "sep"
    ["+1,5,300", "+2,6,301"] "2.5" (5 / 2) (by decide) (by decide) (by decide) (by decide)
    (by decide)
    (by simp +decide [pyFloat, parseSignedMantissa, parseMantissa, splitExp, splitDot,
          natOfDigits, isSpaceChar]; norm_num)
    (by decide) (by decide)

/-- Counterexample to C3: on a drift line with a temperature column
(+1,2,300), the parsed DriftSequence records 2 (the second field), while the
last comma-separated field of that line is 300. -/
theorem drift_point_second_field_cex :
    ((extract_raw_data ["Hb1,x", "+1,2,300", "skip", "+1,5,300", "+2,6,301", "sep"]).map
        fun r => r.drift_points) = .ok [2]
    ∧ ((pySplit "+1,2,300").getLast?.bind pyFloat) = some 300
    ∧ (2 : ℚ) ≠ 300 := by
  refine ⟨?_, ?_, by norm_num⟩ <;>
    simp +decide [extract_raw_data, loopDrift, extract_next_forc, enfLoop, extract_drift_point,
      findFirstDataPoint, hasDriftPoints, linesHaveTemperature, startsSign, startsHb1, pySplit,
      splitCells, pyFloat, parseSignedMantissa, parseMantissa, splitExp, splitDot, natOfDigits,
      isSpaceChar, assembleRaw, Except.map]

/-- Counterexample to C9: a header line is not fully ignored — a header line
beginning with Hb1 switches the parser into drift-point mode and changes the
parse of the identical data section. -/
theorem header_hb1_not_ignored_cex :
    (∀ l ∈ ["Hb1,junk"], startsSign l = false)
    ∧ extract_raw_data (["Hb1,junk"] ++ ["+1,5", "+2,6", "x"])
        ≠ extract_raw_data ["+1,5", "+2,6", "x"] := by
  refine ⟨by decide, ?_⟩
  simp +decide [extract_raw_data, loopDrift, loopNoDrift, extract_next_forc, enfLoop,
    extract_drift_point, findFirstDataPoint, hasDriftPoints, linesHaveTemperature,
    startsSign, startsHb1, pySplit, splitCells, pyFloat, parseSignedMantissa,
    parseMantissa, splitExp, splitDot, natOfDigits, isSpaceChar, assembleRaw, Except.map]

/-- C9 as amended: a file with no sign-prefixed line fails with
DataFormatError; lines before the first data line are skipped for extraction,
but they are still scanned for the Hb1 marker, so a header changes nothing
only when none of its lines begins with Hb1 (or with a sign). -/
theorem parser_header_amended :
    (∀ lines : List String, (∀ l ∈ lines, startsSign l = false) →
        extract_raw_data lines = .error .dataFormatError)
    ∧ (∀ header data : List String,
        (∀ l ∈ header, startsSign l = false ∧ startsHb1 l = false) →
        extract_raw_data (header ++ data) = extract_raw_data data) := by
  constructor
  · intro lines hl
    have h1 : lines.findIdx? startsSign = none := List.findIdx?_eq_none_iff.mpr hl
    simp [extract_raw_data, h1]
  · intro header data hh
    have h1 : header.findIdx? startsSign = none :=
      List.findIdx?_eq_none_iff.mpr fun x hx => (hh x hx).1
    have h2 : hasDriftPoints (header ++ data) = hasDriftPoints data := by
      have hb : header.any startsHb1 = false := by
        rw [List.any_eq_false]
        intro x hx
        simp [(hh x hx).2]
      simp [hasDriftPoints, List.any_append, hb]
    unfold extract_raw_data
    rw [List.findIdx?_append, h1]
    cases hd : data.findIdx? startsSign with
    | none => simp
    | some i =>
      have h3 : (header ++ data)[i + header.length]? = data[i]? := by
        rw [List.getElem?_append_right (by omega)]
        congr 1
        omega
      have h4 : (header ++ data).drop (i + header.length) = data.drop i := by
        rw [Nat.add_comm, List.drop_append]
      simp [Option.none_or, Option.map_some', h2, h3, h4]

/-- Witness for C9 as amended at concrete files: a sign-free file fails, and a
neutral header does not change the parse. -/
theorem parser_header_amended_witness :
    extract_raw_data ["some header", "another line"] = .error .dataFormatError
    ∧ extract_raw_data (["some header"] ++ ["+1,5", "+2,6", "x"])
        = extract_raw_data ["+1,5", "+2,6", "x"] :=
  ⟨parser_header_amended.1 ["some header", "another line"] (by decide),
   parser_header_amended.2 ["some header"] ["+1,5", "+2,6", "x"] (by decide)⟩

end PyFORC
